import Mathlib

/-!
Shallow embedding of the notification rule engine from
`packages/core/src/notifications/rules.ts` of the aws-toolkit-vscode
repository, together with proofs of the specified properties.

JavaScript exceptions are modelled by `Except String`; a thrown error
becomes `Except.error msg` and a returned boolean becomes `Except.ok b`.
-/

deriving instance DecidableEq for Except

namespace Rules

/-- Splits a character list on every occurrence of `sep` (the list-level
analogue of `String.splitOn`, used so that parsing computes by kernel
reduction). -/
def splitOnChar (sep : Char) : List Char → List (List Char)
  | [] => [[]]
  | c :: cs =>
      match splitOnChar sep cs with
      | [] => if c = sep then [[], [c]] else [[c]]
      | r :: rs => if c = sep then [] :: r :: rs else (c :: r) :: rs

/-- Reads a nonempty all-digit character list as a natural number. -/
def digitsToNat : List Char → Option Nat
  | [] => none
  | cs =>
      if cs.all Char.isDigit then
        some (cs.foldl (fun n c => 10 * n + (c.toNat - 48)) 0)
      else none

/-- Modelled from the spec: the `semver` library's version strings
("semantic version strings", §3).  A version is parsed as
`major.minor.patch` with numeric components, optionally preceded by a
`v`, as the semver library accepts.  Strings that do not have this shape
(including the empty string) do not parse. -/
def parseSemver (s : String) : Option (Nat × Nat × Nat) :=
  let cs := match s.data with
    | 'v' :: rest => rest
    | cs => cs
  match (splitOnChar '.' cs).map digitsToNat with
  | [some x, some y, some z] => some (x, y, z)
  | _ => none

namespace semver

/-- Strict lexicographic order on parsed `major.minor.patch` triples:
the semantic-version ordering restricted to release versions. -/
def vlt : Nat × Nat × Nat → Nat × Nat × Nat → Bool
  | (a, b, c), (d, e, f) =>
      decide (a < d) || (decide (a = d) && (decide (b < e) || (decide (b = e) && decide (c < f))))

/-- Modelled from the spec: `semver.gte(version, other)` — true iff
`version ≥ other` in semantic-version ordering; the library throws
`Invalid Version` when either argument does not parse. -/
def gte (version other : String) : Except String Bool :=
  match parseSemver version, parseSemver other with
  | some x, some y => Except.ok (!vlt x y)
  | _, _ => Except.error "Invalid Version"

/-- Modelled from the spec: `semver.lt(version, other)` — true iff
`version < other` in semantic-version ordering; throws `Invalid Version`
when either argument does not parse. -/
def lt (version other : String) : Except String Bool :=
  match parseSemver version, parseSemver other with
  | some x, some y => Except.ok (vlt x y)
  | _, _ => Except.error "Invalid Version"

/-- Modelled from the spec: `semver.eq(a, b)` — semantic-version
equality (equality of the parsed versions, not of the raw strings);
throws `Invalid Version` when either argument does not parse. -/
def eq (a b : String) : Except String Bool :=
  match parseSemver a, parseSemver b with
  | some x, some y => Except.ok (decide (x = y))
  | _, _ => Except.error "Invalid Version"

end semver

/-- Modelled from the spec: the `ConditionalClause` tagged union of
`types.ts` (§3).  The `unknown` constructor stands for a runtime value
whose `type` tag is none of `range`, `exactMatch`, `or` (the condition
trees are loaded from external configuration, so such values can occur
and are what the evaluator's `default` branch rejects). -/
inductive ConditionalClause where
  | range (lowerInclusive upperExclusive : Option String)
  | exactMatch (values : List String)
  | or (clauses : List ConditionalClause)
  | unknown (tag : String)
deriving Repr

/-- Modelled from the spec: a `CriteriaCondition` of `types.ts` (§3):
a `type` string selecting the comparison and the expected `values`. -/
structure CriteriaCondition where
  type : String
  values : List String
deriving Repr

/-- Modelled from the spec: the `DisplayIf` gate of `types.ts` (§3). -/
structure DisplayIf where
  extensionId : String
  ideVersion : Option ConditionalClause := none
  extensionVersion : Option ConditionalClause := none
  additionalCriteria : Option (List CriteriaCondition) := none
deriving Repr

/-- Modelled from the spec: a `ToolkitNotification` wraps one
`DisplayIf`; the engine reads only that field (§3). -/
structure ToolkitNotification where
  displayIf : DisplayIf
deriving Repr

/-- Modelled from the spec: the `RuleContext` environment snapshot of
`types.ts` (§3). -/
structure RuleContext where
  ideVersion : String
  extensionVersion : String
  os : String
  computeEnv : String
  authTypes : List String
  authRegions : List String
  authStates : List String
  authScopes : List String
  installedExtensions : List String
  activeExtensions : List String
deriving Repr

/-- The bound test `!bound || cmp(version, bound)` of the `range`
branch of `isValidVersion`: the JS truthiness test `!bound` holds for an
absent bound and for the empty string, so both leave that side
unconstrained; otherwise the semver comparison runs (and may throw). -/
def boundOk (cmp : String → Except String Bool) : Option String → Except String Bool
  | none => Except.ok true
  | some l => if l = "" then Except.ok true else cmp l

mutual

/-- Function `isValidVersion` of rules.ts.  Both `range` bounds are evaluated
before the conjunction is formed, exactly as in the source. -/
def isValidVersion (version : String) : ConditionalClause → Except String Bool
  | .range lowerInclusive upperExclusive =>
      (boundOk (fun l => semver.gte version l) lowerInclusive).bind fun lowerConstraint =>
      (boundOk (fun u => semver.lt version u) upperExclusive).bind fun upperConstraint =>
      Except.ok (lowerConstraint && upperConstraint)
  | .exactMatch values => anyVersionEq version values
  | .or clauses => anyClauseValid version clauses
  | .unknown tag => Except.error ("Unknown clause type: " ++ tag)

/-- Embeds `condition.values.some((v) => semver.eq(v, version))` of the
`exactMatch` branch: left-to-right short-circuiting disjunction, with
errors of `semver.eq` propagating. -/
def anyVersionEq (version : String) : List String → Except String Bool
  | [] => Except.ok false
  | v :: vs =>
      (semver.eq v version).bind fun b =>
        if b then Except.ok true else anyVersionEq version vs

/-- Embeds `condition.clauses.some((clause) => isValidVersion(version, clause))`
of the `or` branch: left-to-right short-circuiting disjunction. -/
def anyClauseValid (version : String) : List ConditionalClause → Except String Bool
  | [] => Except.ok false
  | c :: cs =>
      (isValidVersion version c).bind fun b =>
        if b then Except.ok true else anyClauseValid version cs

end

/-- The `RuleEngine` class.  The source engine stores one `RuleContext`;
its `evaluate` additionally reads `globals.context.extension.id`, the id
of the currently running extension.  That host global is modelled from
the spec ("the identity of the currently running extension (obtained
from host collaborator)", §4.1) as the field `currentExtId`. -/
structure RuleEngine where
  context : RuleContext
  currentExtId : String

/-- Method `RuleEngine.evaluateRule` of rules.ts: dispatch on the criteria
`type` string; `new Set(xs).has(v)` is membership in `xs`. -/
def RuleEngine.evaluateRule (self : RuleEngine) (criteria : CriteriaCondition) : Except String Bool :=
  let expected := criteria.values
  let isExpected := fun (i : String) => expected.contains i
  let hasAnyOfExpected := fun (i : List String) => i.any fun v => expected.contains v
  let isSuperSetOfExpected := fun (i : List String) => expected.all fun v => i.contains v
  let isEqualSetToExpected := fun (i : List String) =>
    expected.all (fun v => i.contains v) && i.all fun v => expected.contains v
  match criteria.type with
  | "OS" => Except.ok (isExpected self.context.os)
  | "ComputeEnv" => Except.ok (isExpected self.context.computeEnv)
  | "AuthType" => Except.ok (hasAnyOfExpected self.context.authTypes)
  | "AuthRegion" => Except.ok (hasAnyOfExpected self.context.authRegions)
  | "AuthState" => Except.ok (hasAnyOfExpected self.context.authStates)
  | "AuthScopes" => Except.ok (isEqualSetToExpected self.context.authScopes)
  | "InstalledExtensions" => Except.ok (isSuperSetOfExpected self.context.installedExtensions)
  | "ActiveExtensions" => Except.ok (isSuperSetOfExpected self.context.activeExtensions)
  | t => Except.error ("Unknown criteria type: " ++ t)

/-- The `for (const criteria of condition.additionalCriteria)` loop of
`RuleEngine.evaluate`: every rule must pass; the first failing rule stops
the loop with `false`, a thrown error propagates. -/
def RuleEngine.allRulesPass (self : RuleEngine) : List CriteriaCondition → Except String Bool
  | [] => Except.ok true
  | c :: cs =>
      (self.evaluateRule c).bind fun ok =>
        if !ok then Except.ok false else self.allRulesPass cs

/-- The `if (condition.ideVersion) { if (!isValidVersion(...)) return false }`
guards of `RuleEngine.evaluate`: an absent clause imposes nothing. -/
def optClauseOk (version : String) : Option ConditionalClause → Except String Bool
  | none => Except.ok true
  | some c => isValidVersion version c

/-- Method `RuleEngine.evaluate` of rules.ts. -/
def RuleEngine.evaluate (self : RuleEngine) (condition : DisplayIf) : Except String Bool :=
  if condition.extensionId ≠ self.currentExtId then
    Except.ok false
  else
    (optClauseOk self.context.ideVersion condition.ideVersion).bind fun ideOk =>
      if !ideOk then Except.ok false
      else
        (optClauseOk self.context.extensionVersion condition.extensionVersion).bind fun extOk =>
          if !extOk then Except.ok false
          else
            match condition.additionalCriteria with
            | none => Except.ok true
            | some cs => self.allRulesPass cs

/-- Method `RuleEngine.shouldDisplayNotification` of rules.ts. -/
def RuleEngine.shouldDisplayNotification (self : RuleEngine) (payload : ToolkitNotification) :
    Except String Bool :=
  self.evaluate payload.displayIf

/-- Modelled from the spec: the `AuthState` record consumed by
`getRuleContext` (§6): enabled connection kinds (comma-delimited), an
optional active region, the current status, and optional comma-delimited
scopes. -/
structure AuthState where
  authEnabledConnections : String
  awsRegion : Option String
  authStatus : String
  authScopes : Option String
deriving Repr

/-- Modelled from the spec: one entry of `vscode.extensions.all` — an
installed companion extension, with its id and whether it is active
(§6). -/
structure HostExtension where
  id : String
  isActive : Bool
deriving Repr

/-- Function `getRuleContext` of rules.ts.  Host reads (`vscode.version`, the
extension's own version, OS, compute environment, and the
`vscode.extensions.all` enumeration) are passed as parameters.  The JS
truthiness tests `authState.awsRegion ? ... : []` and
`authState.authScopes ? ... : []` treat the empty string like absence. -/
def getRuleContext (ideVersion extensionVersion os computeEnv : String)
    (authState : AuthState) (allExtensions : List HostExtension) : RuleContext :=
  { ideVersion := ideVersion
    extensionVersion := extensionVersion
    os := os
    computeEnv := computeEnv
    authTypes := authState.authEnabledConnections.splitOn ","
    authRegions :=
      match authState.awsRegion with
      | some r => if r = "" then [] else [r]
      | none => []
    authStates := [authState.authStatus]
    authScopes :=
      match authState.authScopes with
      | some s => if s = "" then [] else s.splitOn ","
      | none => []
    installedExtensions := allExtensions.map fun e => e.id
    activeExtensions := (allExtensions.filter fun e => e.isActive).map fun e => e.id }

/-- The list of criteria `type` strings recognized by
`RuleEngine.evaluateRule` (the eight cases of its `switch`). -/
def knownCriteriaTypes : List String :=
  ["OS", "ComputeEnv", "AuthType", "AuthRegion", "AuthState", "AuthScopes",
   "InstalledExtensions", "ActiveExtensions"]

/-- A sample environment snapshot used to instantiate universally
quantified theorems at concrete inputs. -/
def sampleContext : RuleContext :=
  { ideVersion := "1.50.0"
    extensionVersion := "3.0.0"
    os := "mac"
    computeEnv := "local"
    authTypes := []
    authRegions := []
    authStates := ["disconnected"]
    authScopes := []
    installedExtensions := []
    activeExtensions := [] }

@[simp]
theorem ok_bind {ε α β : Type _} (a : α) (f : α → Except ε β) :
    (Except.ok a : Except ε α).bind f = f a := rfl

@[simp]
theorem error_bind {ε α β : Type _} (e : ε) (f : α → Except ε β) :
    (Except.error e : Except ε α).bind f = Except.error e := rfl

/-- C8: for every version `v`, an `or` clause with no sub-clauses
evaluates to `false`, and an `or` with a single sub-clause `c` evaluates
exactly as `c` alone does (same boolean, and the same error if `c`
throws). -/
theorem or_empty_false_or_singleton_id :
    (∀ v : String, isValidVersion v (.or []) = Except.ok false)
    ∧ ∀ (v : String) (c : ConditionalClause),
        isValidVersion v (.or [c]) = isValidVersion v c := by
  constructor
  · intro v
    simp [isValidVersion, anyClauseValid]
  · intro v c
    rw [isValidVersion]
    rw [anyClauseValid]
    cases h : isValidVersion v c with
    | error e => simp
    | ok b => cases b <;> simp [anyClauseValid]

/-- C9: a range bound given as the empty string is treated exactly like
an absent bound, because the source tests the bound's presence with JS
truthiness (`!condition.lowerInclusive`), which holds for both
`undefined` and `""`. -/
theorem empty_string_bound_unconstrained :
    ∀ (v : String) (lo hi : Option String),
      isValidVersion v (.range (some "") hi) = isValidVersion v (.range none hi)
      ∧ isValidVersion v (.range lo (some "")) = isValidVersion v (.range lo none) := by
  intro v lo hi
  constructor
  · simp only [isValidVersion, boundOk]
    simp
  · simp only [isValidVersion, boundOk]
    simp

/-- C6: when the notification's `extensionId` differs from the running
extension's id, `shouldDisplayNotification` returns `false` immediately,
without evaluating the version clauses or the additional criteria (so no
error can be raised by them). -/
theorem mismatched_extension_id_false (e : RuleEngine) (n : ToolkitNotification)
    (h : n.displayIf.extensionId ≠ e.currentExtId) :
    e.shouldDisplayNotification n = Except.ok false := by
  simp [RuleEngine.shouldDisplayNotification, RuleEngine.evaluate, h]

/-- C6 witness: a notification for a different extension whose
`ideVersion` clause and criteria would throw if evaluated still yields
`Except.ok false`. -/
theorem mismatched_extension_id_false_witness :
    (RuleEngine.mk sampleContext "extA").shouldDisplayNotification
      ⟨{ extensionId := "extB"
         ideVersion := some (.unknown "bogus")
         extensionVersion := some (.exactMatch ["not-a-version"])
         additionalCriteria := some [⟨"Bogus", []⟩] }⟩ = Except.ok false :=
  mismatched_extension_id_false _ _ (by decide)

/-- C7: an unrecognized `ConditionalClause` tag makes the version
matcher throw `Unknown clause type: <tag>`, and an unrecognized
`CriteriaCondition` type makes the criteria matcher throw
`Unknown criteria type: <type>`; in both cases an error, not a boolean,
is produced. -/
theorem unknown_variant_fatal :
    (∀ v tag : String,
      isValidVersion v (.unknown tag) = Except.error ("Unknown clause type: " ++ tag))
    ∧ ∀ (e : RuleEngine) (t : String) (values : List String),
        t ∉ knownCriteriaTypes →
        e.evaluateRule ⟨t, values⟩ = Except.error ("Unknown criteria type: " ++ t) := by
  constructor
  · intro v tag
    rw [isValidVersion]
  · intro e t values h
    simp only [knownCriteriaTypes, List.mem_cons, List.not_mem_nil, or_false] at h
    push_neg at h
    obtain ⟨h1, h2, h3, h4, h5, h6, h7, h8⟩ := h
    rw [RuleEngine.evaluateRule]
    split <;> simp_all

/-- C7 witness: the spec's end-to-end scenario 4 — criteria type
`"Bogus"` raises the fatal error. -/
theorem unknown_variant_fatal_witness :
    (RuleEngine.mk sampleContext "ext").evaluateRule ⟨"Bogus", ["x"]⟩
      = Except.error ("Unknown criteria type: " ++ "Bogus") :=
  unknown_variant_fatal.2 _ "Bogus" ["x"] (by decide)

theorem parse_empty : parseSemver "" = none := rfl

theorem parse_isSome_ne_empty {l : String} (h : (parseSemver l).isSome = true) : ¬ l = "" := by
  intro he
  subst he
  rw [parse_empty] at h
  simp at h

/-- C2: a `range` clause matches a version `v` exactly when `v` is
`≥` the lower bound (absent bound unconstrained) and `<` the upper
bound (absent bound unconstrained), under semantic-version ordering; in
particular a version equal to `upperExclusive` does not match. -/
theorem range_clause_iff (v : String) (lo hi : Option String)
    (hv : (parseSemver v).isSome = true)
    (hlo : ∀ l ∈ lo, (parseSemver l).isSome = true)
    (hhi : ∀ u ∈ hi, (parseSemver u).isSome = true) :
    isValidVersion v (.range lo hi) = Except.ok true ↔
      ((∀ l ∈ lo, semver.gte v l = Except.ok true)
        ∧ ∀ u ∈ hi, semver.lt v u = Except.ok true) := by
  obtain ⟨x, hx⟩ := Option.isSome_iff_exists.mp hv
  cases lo with
  | none =>
      cases hi with
      | none => simp only [isValidVersion, boundOk]; simp
      | some u =>
          obtain ⟨z, hz⟩ := Option.isSome_iff_exists.mp (hhi u rfl)
          simp only [isValidVersion, boundOk]
          rw [if_neg (parse_isSome_ne_empty (by simp [hz]))]
          simp [semver.lt, hx, hz]
  | some l =>
      obtain ⟨y, hy⟩ := Option.isSome_iff_exists.mp (hlo l rfl)
      cases hi with
      | none =>
          simp only [isValidVersion, boundOk]
          rw [if_neg (parse_isSome_ne_empty (by simp [hy]))]
          simp [semver.gte, hx, hy]
      | some u =>
          obtain ⟨z, hz⟩ := Option.isSome_iff_exists.mp (hhi u rfl)
          simp only [isValidVersion, boundOk]
          rw [if_neg (parse_isSome_ne_empty (by simp [hy])),
            if_neg (parse_isSome_ne_empty (by simp [hz]))]
          simp [semver.gte, semver.lt, hx, hy, hz]

/-- C2 witness: the spec's end-to-end scenario 2 — version `3.0.0`
against `range [upperExclusive: "3.0.0"]` does not match (`3.0.0` is not
strictly below `3.0.0`), and the range theorem instantiates there. -/
theorem range_clause_iff_witness :
    isValidVersion "3.0.0" (.range none (some "3.0.0")) = Except.ok false
    ∧ (isValidVersion "3.0.0" (.range none (some "3.0.0")) = Except.ok true ↔
        ((∀ l ∈ (none : Option String), semver.gte "3.0.0" l = Except.ok true)
          ∧ ∀ u ∈ some "3.0.0", semver.lt "3.0.0" u = Except.ok true)) :=
  ⟨by decide,
   range_clause_iff "3.0.0" none (some "3.0.0") (by decide)
     (by intro l h; cases h) (by intro u h; cases h; decide)⟩

theorem anyVersionEq_iff {v : String} {x : Nat × Nat × Nat} (hx : parseSemver v = some x) :
    ∀ us : List String, (∀ u ∈ us, (parseSemver u).isSome = true) →
      (anyVersionEq v us = Except.ok true ↔ ∃ u ∈ us, parseSemver u = parseSemver v)
  | [] => by
      intro _
      simp [anyVersionEq]
  | u :: us => by
      intro hall
      obtain ⟨y, hy⟩ := Option.isSome_iff_exists.mp (hall u (by simp))
      rw [anyVersionEq]
      by_cases hxy : y = x
      · subst hxy
        simp [semver.eq, hx, hy]
      · have ih := anyVersionEq_iff hx us fun w hw => hall w (by simp [hw])
        simp only [semver.eq, hx, hy, ok_bind, decide_eq_true_eq, if_neg hxy]
        rw [ih]
        simp only [List.mem_cons, hy, hx]
        constructor
        · rintro ⟨w, hw, hweq⟩
          exact ⟨w, Or.inr hw, hweq⟩
        · rintro ⟨w, hw | hw, hweq⟩
          · subst hw
            rw [hy] at hweq
            exact absurd (Option.some.injEq .. ▸ hweq) hxy
          · exact ⟨w, hw, hweq⟩

/-- C4: an `exactMatch` clause matches `v` exactly when some entry of
`values` is semantically equal to `v` — equality of the parsed semantic
versions, not of the raw strings. -/
theorem exactMatch_clause_iff (v : String) (values : List String)
    (hv : (parseSemver v).isSome = true)
    (hvals : ∀ u ∈ values, (parseSemver u).isSome = true) :
    isValidVersion v (.exactMatch values) = Except.ok true ↔
      ∃ u ∈ values, parseSemver u = parseSemver v := by
  obtain ⟨x, hx⟩ := Option.isSome_iff_exists.mp hv
  simp only [isValidVersion]
  exact anyVersionEq_iff hx values hvals

/-- C4 witness: `"1.2.3"` matches `exactMatch(["1.2.3"])` and the
instantiated equivalence, with `"1.2.4"` rejected alongside. -/
theorem exactMatch_clause_iff_witness :
    isValidVersion "1.2.3" (.exactMatch ["1.2.3"]) = Except.ok true
    ∧ isValidVersion "1.2.4" (.exactMatch ["1.2.3"]) = Except.ok false
    ∧ (isValidVersion "1.2.4" (.exactMatch ["1.2.3"]) = Except.ok true ↔
        ∃ u ∈ ["1.2.3"], parseSemver u = parseSemver "1.2.4") :=
  ⟨by decide, by decide,
   exactMatch_clause_iff "1.2.4" ["1.2.3"] (by decide) (by decide)⟩

/-- C5: for `AuthType`, `AuthRegion` and `AuthState` criteria the
matcher succeeds exactly when some context value for that field lies in
the criterion's expected `values` (non-empty intersection); with an
empty context list the result is `false`, and with an empty expected
list the result is `false`. -/
theorem auth_criteria_intersection (e : RuleEngine) (values : List String) :
    (e.evaluateRule ⟨"AuthType", values⟩ = Except.ok true ↔
      ∃ v ∈ e.context.authTypes, v ∈ values)
    ∧ (e.evaluateRule ⟨"AuthRegion", values⟩ = Except.ok true ↔
      ∃ v ∈ e.context.authRegions, v ∈ values)
    ∧ (e.evaluateRule ⟨"AuthState", values⟩ = Except.ok true ↔
      ∃ v ∈ e.context.authStates, v ∈ values)
    ∧ (e.context.authTypes = [] → e.evaluateRule ⟨"AuthType", values⟩ = Except.ok false)
    ∧ (e.context.authRegions = [] → e.evaluateRule ⟨"AuthRegion", values⟩ = Except.ok false)
    ∧ (e.context.authStates = [] → e.evaluateRule ⟨"AuthState", values⟩ = Except.ok false)
    ∧ (values = [] → e.evaluateRule ⟨"AuthType", values⟩ = Except.ok false)
    ∧ (values = [] → e.evaluateRule ⟨"AuthRegion", values⟩ = Except.ok false)
    ∧ (values = [] → e.evaluateRule ⟨"AuthState", values⟩ = Except.ok false) := by
  refine ⟨?_, ?_, ?_, ?_, ?_, ?_, ?_, ?_, ?_⟩ <;>
    simp [RuleEngine.evaluateRule, List.any_eq_true, List.elem_iff]
  all_goals
    intro h
    simp [h]

/-- C5 witness: instantiated at a context whose `authStates` is
`["disconnected"]` (the spec's end-to-end scenario 3 context) and
expected values `["connected"]`. -/
theorem auth_criteria_intersection_witness :
    ((RuleEngine.mk sampleContext "ext").evaluateRule ⟨"AuthState", ["connected"]⟩
        = Except.ok true ↔
      ∃ v ∈ sampleContext.authStates, v ∈ ["connected"])
    ∧ (RuleEngine.mk sampleContext "ext").evaluateRule ⟨"AuthState", ["connected"]⟩
        = Except.ok false :=
  ⟨(auth_criteria_intersection (RuleEngine.mk sampleContext "ext") ["connected"]).2.2.1,
   by decide⟩

theorem optClauseOk_true_iff (ver : String) (o : Option ConditionalClause) :
    optClauseOk ver o = Except.ok true ↔ ∀ c ∈ o, isValidVersion ver c = Except.ok true := by
  cases o with
  | none => simp [optClauseOk]
  | some c => simp [optClauseOk]

theorem allRulesPass_true_iff (e : RuleEngine) :
    ∀ cs : List CriteriaCondition,
      e.allRulesPass cs = Except.ok true ↔ ∀ c ∈ cs, e.evaluateRule c = Except.ok true
  | [] => by simp [RuleEngine.allRulesPass]
  | c :: cs => by
      rw [RuleEngine.allRulesPass]
      cases h : e.evaluateRule c with
      | error err =>
          simp only [h, error_bind]
          constructor
          · intro hc
            cases hc
          · intro hall
            have hc := hall c (by simp)
            rw [h] at hc
            cases hc
      | ok b =>
          cases b with
          | false =>
              simp only [h, ok_bind, Bool.not_false, if_true]
              constructor
              · intro hc
                simp at hc
              · intro hall
                have hc := hall c (by simp)
                rw [h] at hc
                simp at hc
          | true =>
              simp only [h, ok_bind, Bool.not_true, Bool.false_eq_true, if_false]
              rw [allRulesPass_true_iff e cs]
              constructor
              · intro hall c' hc'
                rcases List.mem_cons.mp hc' with hc' | hc'
                · subst hc'
                  exact h
                · exact hall c' hc'
              · intro hall c' hc'
                exact hall c' (List.mem_cons_of_mem _ hc')

/-- C1: `shouldDisplayNotification` returns `true` exactly when the
notification's `extensionId` equals the running extension's id, every
present version clause (`ideVersion`, `extensionVersion`) matches the
corresponding context version, and every criterion of a present
`additionalCriteria` list passes — an absent clause or an absent/empty
criteria list imposing nothing. -/
theorem shouldDisplay_true_iff (e : RuleEngine) (n : ToolkitNotification) :
    e.shouldDisplayNotification n = Except.ok true ↔
      (n.displayIf.extensionId = e.currentExtId
        ∧ (∀ c ∈ n.displayIf.ideVersion, isValidVersion e.context.ideVersion c = Except.ok true)
        ∧ (∀ c ∈ n.displayIf.extensionVersion,
            isValidVersion e.context.extensionVersion c = Except.ok true)
        ∧ ∀ cs ∈ n.displayIf.additionalCriteria, ∀ c ∈ cs,
            e.evaluateRule c = Except.ok true) := by
  simp only [RuleEngine.shouldDisplayNotification, RuleEngine.evaluate]
  by_cases hid : n.displayIf.extensionId = e.currentExtId
  case neg =>
    rw [if_pos hid]
    constructor
    · intro hc
      simp at hc
    · rintro ⟨h1, -⟩
      exact absurd h1 hid
  case pos =>
    rw [if_neg (by simp [hid])]
    cases h1 : optClauseOk e.context.ideVersion n.displayIf.ideVersion with
    | error err =>
        simp only [h1, error_bind]
        constructor
        · intro hc
          cases hc
        · rintro ⟨-, h2, -, -⟩
          have hh := (optClauseOk_true_iff _ _).mpr h2
          rw [h1] at hh
          cases hh
    | ok b1 =>
        cases b1 with
        | false =>
            simp only [h1, ok_bind, Bool.not_false, if_true]
            constructor
            · intro hc
              simp at hc
            · rintro ⟨-, h2, -, -⟩
              have hh := (optClauseOk_true_iff _ _).mpr h2
              rw [h1] at hh
              simp at hh
        | true =>
            simp only [h1, ok_bind, Bool.not_true, Bool.false_eq_true, if_false]
            have hide : ∀ c ∈ n.displayIf.ideVersion,
                isValidVersion e.context.ideVersion c = Except.ok true :=
              (optClauseOk_true_iff _ _).mp h1
            cases h2 : optClauseOk e.context.extensionVersion n.displayIf.extensionVersion with
            | error err =>
                simp only [h2, error_bind]
                constructor
                · intro hc
                  cases hc
                · rintro ⟨-, -, h3, -⟩
                  have hh := (optClauseOk_true_iff _ _).mpr h3
                  rw [h2] at hh
                  cases hh
            | ok b2 =>
                cases b2 with
                | false =>
                    simp only [h2, ok_bind, Bool.not_false, if_true]
                    constructor
                    · intro hc
                      simp at hc
                    · rintro ⟨-, -, h3, -⟩
                      have hh := (optClauseOk_true_iff _ _).mpr h3
                      rw [h2] at hh
                      simp at hh
                | true =>
                    simp only [h2, ok_bind, Bool.not_true, Bool.false_eq_true, if_false]
                    have hext : ∀ c ∈ n.displayIf.extensionVersion,
                        isValidVersion e.context.extensionVersion c = Except.ok true :=
                      (optClauseOk_true_iff _ _).mp h2
                    cases hcrit : n.displayIf.additionalCriteria with
                    | none =>
                        simp only [hcrit]
                        constructor
                        · intro _
                          exact ⟨hid, hide, hext, by simp⟩
                        · intro _
                          trivial
                    | some cs =>
                        simp only [hcrit]
                        rw [allRulesPass_true_iff e cs]
                        constructor
                        · intro hall
                          refine ⟨hid, hide, hext, ?_⟩
                          intro cs' hcs'
                          cases hcs'
                          exact hall
                        · rintro ⟨-, -, -, h4⟩
                          exact h4 cs rfl

/-- C10: in every context produced by `getRuleContext`, the active
extension ids are a subset of the installed extension ids, because both
lists come from the same enumeration, the active one through a filter. -/
theorem active_subset_installed (ideV extV os env : String) (a : AuthState)
    (exts : List HostExtension) :
    ∀ x ∈ (getRuleContext ideV extV os env a exts).activeExtensions,
      x ∈ (getRuleContext ideV extV os env a exts).installedExtensions := by
  intro x hx
  simp only [getRuleContext, List.mem_map, List.mem_filter] at hx ⊢
  obtain ⟨e, he, rfl⟩ := hx
  exact ⟨e, he.1, rfl⟩

/-- C10 witness: with extensions `a` (active) and `b` (inactive), the
active id `a` is also an installed id. -/
theorem active_subset_installed_witness :
    "a" ∈ (getRuleContext "1.50.0" "3.0.0" "mac" "local"
        ⟨"none", none, "disconnected", none⟩
        [⟨"a", true⟩, ⟨"b", false⟩]).installedExtensions :=
  active_subset_installed "1.50.0" "3.0.0" "mac" "local"
    ⟨"none", none, "disconnected", none⟩ [⟨"a", true⟩, ⟨"b", false⟩] "a" (by decide)

/-- Well-formedness of one range bound for the amended safety claim: an
absent bound and the empty-string bound are skipped by the truthiness
test, and any other bound must be a valid semantic version for the
comparison not to throw. -/
def boundWF : Option String → Bool
  | none => true
  | some s => (s == "") || (parseSemver s).isSome

mutual

/-- Well-formedness of a `ConditionalClause` for the amended safety
claim: only recognized variants, and every version string appearing in a
compared bound or an `exactMatch` entry is a valid semantic version. -/
def clauseWF : ConditionalClause → Bool
  | .range lo hi => boundWF lo && boundWF hi
  | .exactMatch values => values.all fun u => (parseSemver u).isSome
  | .or clauses => clausesWF clauses
  | .unknown _ => false

/-- Conjunction of `clauseWF` over every clause of a list. -/
def clausesWF : List ConditionalClause → Bool
  | [] => true
  | c :: cs => clauseWF c && clausesWF cs

end

theorem boundOk_wf {cmp : String → Except String Bool}
    (hc : ∀ w, (parseSemver w).isSome = true → ∃ b, cmp w = Except.ok b) :
    ∀ o : Option String, boundWF o = true → ∃ b, boundOk cmp o = Except.ok b := by
  intro o ho
  cases o with
  | none => exact ⟨true, rfl⟩
  | some l =>
      rcases (by simpa [boundWF] using ho : l = "" ∨ (parseSemver l).isSome = true) with he | hp
      · subst he
        exact ⟨true, by simp [boundOk]⟩
      · obtain ⟨b, hb⟩ := hc l hp
        refine ⟨b, ?_⟩
        simp only [boundOk]
        rw [if_neg (parse_isSome_ne_empty hp), hb]

theorem anyVersionEq_wf_ok {v : String} (hv : (parseSemver v).isSome = true) :
    ∀ us : List String, us.all (fun u => (parseSemver u).isSome) = true →
      ∃ b, anyVersionEq v us = Except.ok b
  | [] => fun _ => ⟨false, by rw [anyVersionEq]⟩
  | u :: us => by
      intro h
      simp only [List.all_cons, Bool.and_eq_true] at h
      obtain ⟨y, hy⟩ := Option.isSome_iff_exists.mp h.1
      obtain ⟨x, hx⟩ := Option.isSome_iff_exists.mp hv
      rw [anyVersionEq]
      obtain ⟨b, hb⟩ := anyVersionEq_wf_ok hv us h.2
      by_cases hxy : y = x
      · exact ⟨true, by simp [semver.eq, hy, hx, hxy]⟩
      · exact ⟨b, by simp [semver.eq, hy, hx, hxy, hb]⟩

mutual

theorem isValidVersion_wf_ok {v : String} (hv : (parseSemver v).isSome = true) :
    ∀ c : ConditionalClause, clauseWF c = true → ∃ b, isValidVersion v c = Except.ok b
  | .range lo hi => by
      intro h
      simp only [clauseWF, Bool.and_eq_true] at h
      obtain ⟨x, hx⟩ := Option.isSome_iff_exists.mp hv
      have hcmp_ge : ∀ w, (parseSemver w).isSome = true →
          ∃ b, semver.gte v w = Except.ok b := by
        intro w hw
        obtain ⟨y, hy⟩ := Option.isSome_iff_exists.mp hw
        exact ⟨!semver.vlt x y, by simp [semver.gte, hx, hy]⟩
      have hcmp_lt : ∀ w, (parseSemver w).isSome = true →
          ∃ b, semver.lt v w = Except.ok b := by
        intro w hw
        obtain ⟨y, hy⟩ := Option.isSome_iff_exists.mp hw
        exact ⟨semver.vlt x y, by simp [semver.lt, hx, hy]⟩
      obtain ⟨b1, hb1⟩ := boundOk_wf hcmp_ge lo h.1
      obtain ⟨b2, hb2⟩ := boundOk_wf hcmp_lt hi h.2
      refine ⟨b1 && b2, ?_⟩
      simp only [isValidVersion]
      rw [hb1, ok_bind, hb2, ok_bind]
  | .exactMatch values => by
      intro h
      simp only [clauseWF] at h
      rw [isValidVersion]
      exact anyVersionEq_wf_ok hv values h
  | .or clauses => by
      intro h
      simp only [clauseWF] at h
      rw [isValidVersion]
      exact anyClauseValid_wf_ok hv clauses h
  | .unknown tag => by
      intro h
      simp [clauseWF] at h

theorem anyClauseValid_wf_ok {v : String} (hv : (parseSemver v).isSome = true) :
    ∀ cs : List ConditionalClause, clausesWF cs = true →
      ∃ b, anyClauseValid v cs = Except.ok b
  | [] => fun _ => ⟨false, by rw [anyClauseValid]⟩
  | c :: cs => by
      intro h
      simp only [clausesWF, Bool.and_eq_true] at h
      obtain ⟨b, hb⟩ := isValidVersion_wf_ok hv c h.1
      obtain ⟨b', hb'⟩ := anyClauseValid_wf_ok hv cs h.2
      rw [anyClauseValid, hb, ok_bind]
      cases b with
      | false => exact ⟨b', by simp [hb']⟩
      | true => exact ⟨true, by simp⟩

end

theorem optClauseOk_wf_ok {ver : String} (hv : (parseSemver ver).isSome = true)
    (o : Option ConditionalClause) (h : ∀ c ∈ o, clauseWF c = true) :
    ∃ b, optClauseOk ver o = Except.ok b := by
  cases o with
  | none => exact ⟨true, rfl⟩
  | some c => exact isValidVersion_wf_ok hv c (h c rfl)

theorem evaluateRule_known_ok (e : RuleEngine) (c : CriteriaCondition)
    (h : c.type ∈ knownCriteriaTypes) : ∃ b, e.evaluateRule c = Except.ok b := by
  obtain ⟨t, values⟩ := c
  simp only [knownCriteriaTypes, List.mem_cons, List.not_mem_nil, or_false] at h
  rcases h with rfl | rfl | rfl | rfl | rfl | rfl | rfl | rfl <;>
    · rw [RuleEngine.evaluateRule]
      exact ⟨_, rfl⟩

theorem allRulesPass_known_ok (e : RuleEngine) :
    ∀ cs : List CriteriaCondition, (∀ c ∈ cs, c.type ∈ knownCriteriaTypes) →
      ∃ b, e.allRulesPass cs = Except.ok b
  | [] => fun _ => ⟨true, by rw [RuleEngine.allRulesPass]⟩
  | c :: cs => fun h => by
      obtain ⟨b, hb⟩ := evaluateRule_known_ok e c (h c (by simp))
      obtain ⟨b', hb'⟩ := allRulesPass_known_ok e cs fun c' hc' => h c' (by simp [hc'])
      rw [RuleEngine.allRulesPass, hb, ok_bind]
      cases b with
      | false => exact ⟨false, by simp⟩
      | true => exact ⟨b', by simp [hb']⟩

/-- C3 counterexample: an input whose condition tree uses only the
recognized variants (`exactMatch`) and none of the unknown ones, yet on
which `shouldDisplayNotification` raises an error rather than resolving
to a boolean — the entry `"not-a-version"` makes `semver.eq` throw
`Invalid Version`. -/
theorem recognized_variants_can_error :
    (RuleEngine.mk sampleContext "ext").shouldDisplayNotification
      ⟨{ extensionId := "ext"
         ideVersion := some (.exactMatch ["not-a-version"]) }⟩
      = Except.error "Invalid Version" := by decide

/-- C3 (amended): for every input whose condition tree uses only the
recognized variants and the eight enumerated criteria types, and whose
context versions and compared version strings are all valid semantic
versions, `shouldDisplayNotification` resolves to a boolean without
error; it throws only for an unrecognized variant or an invalid version
string. -/
theorem wf_input_resolves (e : RuleEngine) (n : ToolkitNotification)
    (hv1 : (parseSemver e.context.ideVersion).isSome = true)
    (hv2 : (parseSemver e.context.extensionVersion).isSome = true)
    (h1 : ∀ c ∈ n.displayIf.ideVersion, clauseWF c = true)
    (h2 : ∀ c ∈ n.displayIf.extensionVersion, clauseWF c = true)
    (h3 : ∀ cs ∈ n.displayIf.additionalCriteria, ∀ c ∈ cs, c.type ∈ knownCriteriaTypes) :
    ∃ b, e.shouldDisplayNotification n = Except.ok b := by
  simp only [RuleEngine.shouldDisplayNotification, RuleEngine.evaluate]
  by_cases hid : n.displayIf.extensionId = e.currentExtId
  case neg => exact ⟨false, by rw [if_pos hid]⟩
  case pos =>
    rw [if_neg (by simp [hid])]
    obtain ⟨b1, hb1⟩ := optClauseOk_wf_ok hv1 n.displayIf.ideVersion h1
    rw [hb1, ok_bind]
    cases b1 with
    | false => exact ⟨false, by simp⟩
    | true =>
        simp only [Bool.not_true, Bool.false_eq_true, if_false]
        obtain ⟨b2, hb2⟩ := optClauseOk_wf_ok hv2 n.displayIf.extensionVersion h2
        rw [hb2, ok_bind]
        cases b2 with
        | false => exact ⟨false, by simp⟩
        | true =>
            simp only [Bool.not_true, Bool.false_eq_true, if_false]
            cases hcrit : n.displayIf.additionalCriteria with
            | none => exact ⟨true, rfl⟩
            | some cs =>
                exact allRulesPass_known_ok e cs
                  (h3 cs (by simp [Option.mem_def, hcrit]))

/-- C3 witness: a fully well-formed notification (nested `or`, ranges,
`exactMatch`, and an `AuthState` criterion) resolves to a boolean. -/
theorem wf_input_resolves_witness :
    ∃ b, (RuleEngine.mk sampleContext "ext").shouldDisplayNotification
      ⟨{ extensionId := "ext"
         ideVersion := some (.or [.range (some "1.0.0") none, .exactMatch ["2.0.0"]])
         extensionVersion := some (.range none (some "3.0.0"))
         additionalCriteria := some [⟨"AuthState", ["disconnected"]⟩] }⟩ = Except.ok b :=
  wf_input_resolves _ _ (by decide) (by decide)
    (by intro c hc; cases hc; decide)
    (by intro c hc; cases hc; decide)
    (by intro cs hcs; cases hcs; intro c hc; rw [List.mem_singleton] at hc; subst hc; decide)

end Rules
